import Mathlib

/-!
Verification development for the flydigibs2_linux repository.

This file gives a shallow embedding, in Lean 4, of the core logic of the
repository and proves properties about it:

* `src/bs2pro/smart_mode.py` — the Smart Mode fan-curve controller
  (`SmartModeManager`): temperature → RPM mapping, hysteresis,
  asymmetric delay for RPM decreases.
* `src/bs2pro/rpm_monitor.py` — the telemetry decoder
  (`RPMMonitor._decode_rpm_data`).
* `src/bs2pro/controller.py` — the device locator
  (`BS2ProController.detect_bs2pro`) and the command dispatcher retry
  logic (`BS2ProController.send_command`).

Python floats (temperatures, timestamps) are modelled with `ℚ`; RPM values
with `ℤ` (or `ℕ` in the byte decoder); Python `None` with `Option`.
-/

namespace BS2Pro

/-- One temperature→RPM range entry: the dict
`{"min_temp": …, "max_temp": …, "rpm": …}` of `smart_mode.py`
(the `description` string plays no role in any computation and is omitted). -/
structure TempRange where
  min_temp : ℚ
  max_temp : ℚ
  rpm : ℤ
deriving DecidableEq

/-- The mutable state of `SmartModeManager` (smart_mode.py, `__init__`):
`temperature_ranges`, `is_enabled`, `last_temperature`, `last_rpm`,
`pending_rpm_change`, `rpm_change_time`, `rpm_change_delay`. -/
structure SmartState where
  temperature_ranges : List TempRange
  is_enabled : Bool
  last_temperature : Option ℚ
  last_rpm : Option ℤ
  pending_rpm_change : Option ℤ
  rpm_change_time : Option ℚ
  rpm_change_delay : ℚ
deriving DecidableEq

/-- Python's `abs` on rationals. -/
def rabs (x : ℚ) : ℚ := if x < 0 then -x else x

/-- The centre of a range, `(min_temp + max_temp) / 2`
(smart_mode.py line 178). -/
def center (r : TempRange) : ℚ := (r.min_temp + r.max_temp) / 2

/-- `abs(temperature - range_center)` (smart_mode.py line 179). -/
def centerDist (t : ℚ) (r : TempRange) : ℚ := rabs (t - center r)

/-- The closest-range accumulation loop of `_calculate_target_rpm`
(smart_mode.py lines 173–183).  The accumulator holds
`(closest_range, min_distance)`; a `none` distance stands for the initial
`float('inf')`, against which every distance compares strictly smaller. -/
def closestLoop (t : ℚ) : List TempRange → Option TempRange × Option ℚ →
    Option TempRange × Option ℚ
  | [], acc => acc
  | r :: rest, (best, bestDist) =>
    let d := centerDist t r
    match bestDist with
    | none => closestLoop t rest (some r, some d)
    | some m =>
      if d < m then closestLoop t rest (some r, some d)
      else closestLoop t rest (best, bestDist)

/-- `range_data['min_temp'] <= temperature < range_data['max_temp']`
(smart_mode.py line 155). -/
def inTempRange (t : ℚ) (r : TempRange) : Bool :=
  decide (r.min_temp ≤ t) && decide (t < r.max_temp)

/-- `sorted(self.temperature_ranges, key=lambda x: x['min_temp'])`
(smart_mode.py line 161).  Python's `sorted` is a stable sort; a stable
insertion sort on the same key produces the identical list. -/
def sortRanges (l : List TempRange) : List TempRange :=
  l.insertionSort (fun a b => a.min_temp ≤ b.min_temp)

/-- `SmartModeManager._calculate_target_rpm` (smart_mode.py lines 151–189):
first an exact half-open-interval match over the configured list; otherwise,
on a non-empty list sorted by `min_temp`: below the lowest range → lowest
range's rpm; at/above the highest range's `max_temp` → highest range's rpm;
otherwise the rpm of the first range whose centre is at minimal distance
from the temperature; final fallback 1300. -/
def calculate_target_rpm (ranges : List TempRange) (t : ℚ) : ℤ :=
  match ranges.find? (inTempRange t) with
  | some r => r.rpm
  | none =>
    match sortRanges ranges with
    | [] => 1300
    | r0 :: rest =>
      if t < r0.min_temp then r0.rpm
      else
        let rlast := (r0 :: rest).getLast (List.cons_ne_nil _ _)
        if rlast.max_temp ≤ t then rlast.rpm
        else
          match (closestLoop t (r0 :: rest) (none, none)).1 with
          | some rc => rc.rpm
          | none => 1300

/-- The tail of `get_rpm_for_temperature` once the pending-change block and
the hysteresis block have both fallen through (smart_mode.py lines 111–149):
record the temperature, compute the target, then branch on
first-reading / increase / decrease / no-change. -/
def smartEval (s : SmartState) (t now : ℚ) : ℤ × SmartState :=
  let s1 : SmartState := { s with last_temperature := some t }
  let newRpm := calculate_target_rpm s.temperature_ranges t
  match s.last_rpm with
  | none => (newRpm, { s1 with last_rpm := some newRpm })
  | some lastR =>
    if lastR < newRpm then
      (newRpm, { s1 with last_rpm := some newRpm, pending_rpm_change := none,
                         rpm_change_time := none })
    else if newRpm < lastR then
      match s.pending_rpm_change with
      | none =>
        (lastR, { s1 with pending_rpm_change := some newRpm,
                          rpm_change_time := some now })
      | some p =>
        if p ≠ newRpm then
          (lastR, { s1 with pending_rpm_change := some newRpm,
                            rpm_change_time := some now })
        else (lastR, s1)
    else (lastR, s1)

/-- `SmartModeManager.get_rpm_for_temperature` (smart_mode.py lines 76–149).
`now` is the value of `time.time()` observed at the top of the call; the
result is the returned RPM paired with the state after the call.
If a pending change with its timestamp exists and `last_rpm` is set:
before the delay has elapsed, keep `last_rpm` (recording the temperature);
otherwise apply the pending value and return it.  Else, hysteresis: with a
recorded temperature within 1.0, a recorded rpm and no pending change, the
sample is ignored.  Else fall through to `smartEval`. -/
def get_rpm_for_temperature (s : SmartState) (t now : ℚ) : ℤ × SmartState :=
  match s.pending_rpm_change, s.rpm_change_time, s.last_rpm with
  | some pending, some changeTime, some lastR =>
    if now - changeTime < s.rpm_change_delay then
      (lastR, { s with last_temperature := some t })
    else
      (pending, { s with last_rpm := some pending, pending_rpm_change := none,
                         rpm_change_time := none, last_temperature := some t })
  | _, _, _ =>
    match s.last_temperature, s.last_rpm, s.pending_rpm_change with
    | some lastT, some lastR, none =>
      if rabs (t - lastT) < 1 then (lastR, s) else smartEval s t now
    | _, _, _ => smartEval s t now

/-- `SmartModeManager.set_enabled` (smart_mode.py lines 199–208): enabling
resets all hysteresis/delay tracking; disabling leaves the tracking as is. -/
def set_enabled (s : SmartState) (enabled : Bool) : SmartState :=
  if enabled then
    { s with is_enabled := true, last_temperature := none, last_rpm := none,
             pending_rpm_change := none, rpm_change_time := none }
  else { s with is_enabled := false }

/-- The default temperature ranges written by `load_config` when no config
file exists (smart_mode.py lines 38–44). -/
def defaultRanges : List TempRange :=
  [⟨0, 50, 1300⟩, ⟨50, 60, 1700⟩, ⟨60, 70, 1900⟩, ⟨70, 80, 2100⟩, ⟨80, 100, 2700⟩]

/-- The state of a fresh `SmartModeManager` right after `__init__`/`load_config`:
all tracking fields are `None` and the delay is 10 seconds. -/
def initState (ranges : List TempRange) (enabled : Bool) : SmartState :=
  { temperature_ranges := ranges, is_enabled := enabled,
    last_temperature := none, last_rpm := none,
    pending_rpm_change := none, rpm_change_time := none,
    rpm_change_delay := 10 }

example : calculate_target_rpm defaultRanges 45 = 1300 := by decide
example : calculate_target_rpm defaultRanges 75 = 2100 := by decide
example : calculate_target_rpm defaultRanges 85 = 2700 := by decide
example : calculate_target_rpm defaultRanges 120 = 2700 := by decide
example : calculate_target_rpm defaultRanges (-5) = 1300 := by decide
example :
    (get_rpm_for_temperature (initState defaultRanges true) 75 0).1 = 2100 := by
  decide

/-! ## Telemetry decoder (`rpm_monitor.py`, `RPMMonitor._decode_rpm_data`) -/

/-- `data[i]` on a byte string, with index `i` only ever used under the
length guards of the decoder (default 0 is never reached there). -/
def byteAt (data : List ℕ) (i : ℕ) : ℕ := data.getD i 0

/-- `struct.unpack('<H', …)` on two bytes. -/
def u16le (b0 b1 : ℕ) : ℕ := b0 + 256 * b1

/-- `struct.unpack('>H', …)` on two bytes. -/
def u16be (b0 b1 : ℕ) : ℕ := 256 * b0 + b1

/-- `1000 <= v <= 3000` — the decoder's realistic-fan-RPM band
(rpm_monitor.py lines 229, 232, 242, 245, 255, 258, 273, 276). -/
def rpmInBand (v : ℕ) : Bool := decide (1000 ≤ v) && decide (v ≤ 3000)

/-- The status-frame precondition of `_decode_rpm_data`
(rpm_monitor.py line 215): length ≥ 10 and leading marker
`0x03 0x5A 0xA5`. -/
def isStatusFrame (data : List ℕ) : Bool :=
  decide (10 ≤ data.length) && decide (byteAt data 0 = 0x03) &&
  decide (byteAt data 1 = 0x5a) && decide (byteAt data 2 = 0xa5)

/-- Method 1 of the decoder: bytes 8–9, LE then BE
(rpm_monitor.py lines 222–234). -/
def decodeM1 (data : List ℕ) : Option ℕ :=
  if 10 ≤ data.length then
    let vle := u16le (byteAt data 8) (byteAt data 9)
    let vbe := u16be (byteAt data 8) (byteAt data 9)
    if rpmInBand vle then some vle
    else if rpmInBand vbe then some vbe
    else none
  else none

/-- Method 2 of the decoder: bytes 10–11, LE then BE
(rpm_monitor.py lines 237–247). -/
def decodeM2 (data : List ℕ) : Option ℕ :=
  if 12 ≤ data.length then
    let vle := u16le (byteAt data 10) (byteAt data 11)
    let vbe := u16be (byteAt data 10) (byteAt data 11)
    if rpmInBand vle then some vle
    else if rpmInBand vbe then some vbe
    else none
  else none

/-- Method 3 of the decoder: bytes 13–14, LE then BE
(rpm_monitor.py lines 250–260). -/
def decodeM3 (data : List ℕ) : Option ℕ :=
  if 15 ≤ data.length then
    let vle := u16le (byteAt data 13) (byteAt data 14)
    let vbe := u16be (byteAt data 13) (byteAt data 14)
    if rpmInBand vle then some vle
    else if rpmInBand vbe then some vbe
    else none
  else none

/-- Method 4 of the decoder: bytes 14–15, tried only through the scale loop
`for scale in [10, 100]`, LE then BE at each scale — the unscaled values are
never tested (rpm_monitor.py lines 263–278). -/
def decodeM4 (data : List ℕ) : Option ℕ :=
  if 16 ≤ data.length then
    let vle := u16le (byteAt data 14) (byteAt data 15)
    let vbe := u16be (byteAt data 14) (byteAt data 15)
    if rpmInBand (vle * 10) then some (vle * 10)
    else if rpmInBand (vbe * 10) then some (vbe * 10)
    else if rpmInBand (vle * 100) then some (vle * 100)
    else if rpmInBand (vbe * 100) then some (vbe * 100)
    else none
  else none

/-- `RPMMonitor._decode_rpm_data` (rpm_monitor.py lines 206–288): on a
status frame, the four methods in order, first hit wins; `None` otherwise. -/
def decode_rpm_data (data : List ℕ) : Option ℕ :=
  if isStatusFrame data then
    match decodeM1 data with
    | some v => some v
    | none =>
      match decodeM2 data with
      | some v => some v
      | none =>
        match decodeM3 data with
        | some v => some v
        | none => decodeM4 data
  else none

example :
    decode_rpm_data [0x03, 0x5a, 0xa5, 0xef, 0x0b, 0, 0, 0, 0x14, 0x05] =
      some 1300 := by decide
example : decode_rpm_data [0x03, 0x5a, 0xa5] = none := by decide

/-! ## Device locator (`controller.py`, `BS2ProController.detect_bs2pro`) -/

/-- The descriptor fields the locator reads off one enumerated HID device
(controller.py lines 77–93).  Missing strings come back as `""` (the
dict-`get` default); ids and path may be absent. -/
structure HidDeviceInfo where
  vendor_id : Option ℕ
  product_id : Option ℕ
  manufacturer_string : List Char
  product_string : List Char
  path : Option (List Char)
deriving DecidableEq

/-- Python `s.upper()` on an ASCII string. -/
def upperChars (s : List Char) : List Char := s.map Char.toUpper

/-- Does `hay` start with `needle`? -/
def startsWithChars : List Char → List Char → Bool
  | _, [] => true
  | [], _ :: _ => false
  | h :: hs, n :: ns => h = n && startsWithChars hs ns

/-- Python's substring test `needle in hay`. -/
def hasSubstr : List Char → List Char → Bool
  | [], needle => needle.isEmpty
  | h :: t, needle => startsWithChars (h :: t) needle || hasSubstr t needle

/-- `FLYDIGI_VENDOR_IDS` (controller.py lines 61–63). -/
def FLYDIGI_VENDOR_IDS : List ℕ := [0x37d7]

/-- `is_bs2_product` (controller.py line 109): `"BS2" in product_upper`
guarded by non-emptiness of the uppercased product string. -/
def isBs2Product (d : HidDeviceInfo) : Bool :=
  let pU := upperChars d.product_string
  !pU.isEmpty && hasSubstr pU "BS2".toList

/-- `is_flydigi_manufacturer` (controller.py line 110). -/
def isFlydigiManufacturer (d : HidDeviceInfo) : Bool :=
  let mU := upperChars d.manufacturer_string
  !mU.isEmpty && hasSubstr mU "FLYDIGI".toList

/-- `is_flydigi_vendor` (controller.py line 111). -/
def isFlydigiVendor (d : HidDeviceInfo) : Bool :=
  match d.vendor_id with
  | some v => FLYDIGI_VENDOR_IDS.contains v
  | none => false

/-- Whether any of the five detection rules of `detect_bs2pro` fires for
one device (controller.py lines 114–174).  Every rule returns the same
`(vid, pid, path)` triple, so the per-device outcome is their disjunction,
evaluated in the written order. -/
def deviceMatches (d : HidDeviceInfo) : Bool :=
  isBs2Product d ||
  (isFlydigiManufacturer d && isBs2Product d) ||
  (isFlydigiVendor d && isBs2Product d) ||
  isFlydigiManufacturer d ||
  (isFlydigiVendor d && d.vendor_id.isSome && d.product_id.isSome)

/-- Only the last-resort rule 5 of `detect_bs2pro` (controller.py
lines 162–174): flydigi vendor id with both ids present. -/
def vendorOnlyRule (d : HidDeviceInfo) : Bool :=
  isFlydigiVendor d && d.vendor_id.isSome && d.product_id.isSome

/-- `BS2ProController.detect_bs2pro` (controller.py lines 55–180) over a
given enumeration: the `(vid, pid, path)` of the first device some rule
matches, `(None, None, None)` otherwise. -/
def detect_bs2pro (devices : List HidDeviceInfo) :
    Option ℕ × Option ℕ × Option (List Char) :=
  match devices.find? deviceMatches with
  | some d => (d.vendor_id, d.product_id, d.path)
  | none => (none, none, none)

example :
    detect_bs2pro [{ vendor_id := some 0x37d7, product_id := some 1,
                     manufacturer_string := [], product_string := [],
                     path := none }] = (some 0x37d7, some 1, none) := by
  decide

/-! ## Command dispatcher (`controller.py`, `BS2ProController.send_command`)

`send_command` interacts with the outside world (shared device, HID
enumeration, device opening, raw I/O).  The environment a given attempt
runs against is abstracted into one outcome per loop iteration; the
dispatcher itself (the `for attempt in range(5)` loop with its retry,
sleep, status-callback and return logic, controller.py lines 219–358)
is modelled exactly. -/

/-- What the environment does to one iteration of the retry loop:

* `sharedOk` — the shared device is available and write/read succeed.
* `sharedErr` — an exception escapes to the outer `except` handler
  (e.g. the shared device write fails).
* `noDevice` — no shared device and `detect_bs2pro` finds nothing.
* `openAllFail` — device found, but every opening method fails
  (`device_opened` stays false).
* `tempOk` — device found and some opening method writes the frame. -/
inductive AttemptEnv where
  | sharedOk
  | sharedErr
  | noDevice
  | openAllFail
  | tempOk
deriving DecidableEq

/-- Externally observable effects of `send_command`, in order: the start of
each numbered attempt, each `time.sleep(0.2)`, and each status-callback
invocation (controller.py lines 252, 337, 341, 346, 353, 356). -/
inductive SendEvent where
  | attemptStart (n : ℕ)
  | sleep200
  | statusDeviceNotFound
  | statusOpenFailed
  | statusHidError
  | statusSuccess
deriving DecidableEq

/-- Is the event a failure report to the status sink? -/
def isFailureStatus : SendEvent → Bool
  | SendEvent.statusDeviceNotFound => true
  | SendEvent.statusOpenFailed => true
  | SendEvent.statusHidError => true
  | _ => false

/-- Is the event any status-sink invocation? -/
def isStatus : SendEvent → Bool
  | SendEvent.statusDeviceNotFound => true
  | SendEvent.statusOpenFailed => true
  | SendEvent.statusHidError => true
  | SendEvent.statusSuccess => true
  | _ => false

/-- The retry loop of `send_command` over the remaining attempt numbers
(`range(5)` yields `[0, 1, 2, 3, 4]`): result paired with the emitted
events.  An exhausted list models falling off the loop (unreachable for
`range(5)`, since attempt 4 returns on every path). -/
def send_command_go (env : ℕ → AttemptEnv) : List ℕ → Bool × List SendEvent
  | [] => (false, [])
  | attempt :: rest =>
    match env attempt with
    | AttemptEnv.sharedOk =>
      (true, [SendEvent.attemptStart attempt, SendEvent.statusSuccess])
    | AttemptEnv.tempOk =>
      (true, [SendEvent.attemptStart attempt, SendEvent.statusSuccess])
    | AttemptEnv.noDevice =>
      (false, [SendEvent.attemptStart attempt, SendEvent.statusDeviceNotFound])
    | AttemptEnv.openAllFail =>
      if attempt < 4 then
        let r := send_command_go env rest
        (r.1, SendEvent.attemptStart attempt :: SendEvent.sleep200 :: r.2)
      else (false, [SendEvent.attemptStart attempt, SendEvent.statusOpenFailed])
    | AttemptEnv.sharedErr =>
      if attempt < 4 then
        let r := send_command_go env rest
        (r.1, SendEvent.attemptStart attempt :: SendEvent.sleep200 :: r.2)
      else (false, [SendEvent.attemptStart attempt, SendEvent.statusHidError])

/-- `BS2ProController.send_command` with the HID library present:
the retry loop over `range(5)`. -/
def send_command (env : ℕ → AttemptEnv) : Bool × List SendEvent :=
  send_command_go env [0, 1, 2, 3, 4]

example :
    send_command (fun _ => AttemptEnv.noDevice) =
      (false, [SendEvent.attemptStart 0, SendEvent.statusDeviceNotFound]) := by
  decide

/-! ## Fan-curve controller: pending-change and hysteresis behaviour -/

/-- A reachable pending state of the controller: `last_rpm = 2100` was
applied for 75 °C, then a 45 °C sample at time 20 queued the decrease to
1300.  (Equals `runSamples (set_enabled (initState defaultRanges false)
true) [(75, 0), (45, 20)]`.) -/
def pendingState : SmartState :=
  { temperature_ranges := defaultRanges, is_enabled := true,
    last_temperature := some 45, last_rpm := some 2100,
    pending_rpm_change := some 1300, rpm_change_time := some 20,
    rpm_change_delay := 10 }

/-- C1 (amended): once the delay window has elapsed, the call applies the
pending target as the new `last_rpm`, clears the pending state, records the
sample temperature, and returns the pending target itself — it does *not*
re-evaluate the current sample. -/
theorem pending_elapsed_applies_pending_target
    (s : SmartState) (p lr : ℤ) (ct t now : ℚ)
    (hp : s.pending_rpm_change = some p)
    (hc : s.rpm_change_time = some ct)
    (hl : s.last_rpm = some lr)
    (hd : s.rpm_change_delay ≤ now - ct) :
    get_rpm_for_temperature s t now =
      (p, { s with last_rpm := some p, pending_rpm_change := none,
                   rpm_change_time := none, last_temperature := some t }) := by
  obtain ⟨rs, en, olt, olr, op, oct, dl⟩ := s
  simp only at hp hc hl hd
  subst hp hc hl
  simp only [get_rpm_for_temperature]
  rw [if_neg (not_lt.mpr hd)]

/-- Witness for `pending_elapsed_applies_pending_target` at a concrete
pending state and sample. -/
theorem pending_elapsed_applies_pending_target_witness :
    get_rpm_for_temperature pendingState 50 31 =
      (1300, { temperature_ranges := defaultRanges, is_enabled := true,
               last_temperature := some 50, last_rpm := some 1300,
               pending_rpm_change := none, rpm_change_time := none,
               rpm_change_delay := 10 }) :=
  pending_elapsed_applies_pending_target pendingState 1300 2100 20 50 31
    rfl rfl rfl (by norm_num [pendingState])

/-- C1 counterexample: with the pending decrease to 1300 due (elapsed 11 s
≥ 10 s), a simultaneous 85 °C sample demands 2700 RPM, yet the call returns
the stale pending target 1300, not the target computed from the current
temperature. -/
theorem pending_elapsed_ignores_current_sample_cex :
    pendingState.rpm_change_delay ≤ 31 - 20 ∧
    calculate_target_rpm pendingState.temperature_ranges 85 = 2700 ∧
    (get_rpm_for_temperature pendingState 85 31).1 = 1300 ∧
    (get_rpm_for_temperature pendingState 85 31).1 ≠
      calculate_target_rpm pendingState.temperature_ranges 85 := by
  norm_num [get_rpm_for_temperature, pendingState, calculate_target_rpm,
    inTempRange, defaultRanges, List.find?]

/-- C2 (amended): when *no* decrease is pending and the sample is not
swallowed by hysteresis (no recorded temperature, or a change of at least
1 °C), a target above `last_rpm` is applied immediately: the call returns
it, records it as `last_rpm`, and leaves no pending decrease. -/
theorem increase_applies_immediately_when_no_pending
    (s : SmartState) (lr : ℤ) (t now : ℚ)
    (hp : s.pending_rpm_change = none)
    (hl : s.last_rpm = some lr)
    (hh : ∀ lt0, s.last_temperature = some lt0 → 1 ≤ rabs (t - lt0))
    (hinc : lr < calculate_target_rpm s.temperature_ranges t) :
    get_rpm_for_temperature s t now =
      (calculate_target_rpm s.temperature_ranges t,
       { s with last_temperature := some t,
                last_rpm := some (calculate_target_rpm s.temperature_ranges t),
                pending_rpm_change := none, rpm_change_time := none }) := by
  obtain ⟨rs, en, olt, olr, op, oct, dl⟩ := s
  simp only at hp hl hh hinc
  subst hp hl
  cases olt with
  | none =>
    cases oct <;>
      simp only [get_rpm_for_temperature, smartEval] <;>
      rw [if_pos hinc]
  | some lt0 =>
    have h1 : ¬ rabs (t - lt0) < 1 := not_lt.mpr (hh lt0 rfl)
    cases oct <;>
      simp only [get_rpm_for_temperature, smartEval] <;>
      rw [if_neg h1, if_pos hinc]

/-- Witness for `increase_applies_immediately_when_no_pending`: from
`last_rpm = 1300` at 45 °C, a 65 °C sample demands 1900 and gets it on the
same call. -/
theorem increase_applies_immediately_witness :
    get_rpm_for_temperature
        { temperature_ranges := defaultRanges, is_enabled := true,
          last_temperature := some 45, last_rpm := some 1300,
          pending_rpm_change := none, rpm_change_time := none,
          rpm_change_delay := 10 } 65 100 =
      (1900, { temperature_ranges := defaultRanges, is_enabled := true,
               last_temperature := some 65, last_rpm := some 1900,
               pending_rpm_change := none, rpm_change_time := none,
               rpm_change_delay := 10 }) :=
  increase_applies_immediately_when_no_pending _ 1300 65 100 rfl rfl
    (by intro lt0 h; simp only [Option.some.injEq] at h; subst h; norm_num [rabs])
    (by decide)

/-- C2 counterexample: while the decrease to 1300 is pending and the window
has not elapsed (5 s < 10 s), an 85 °C sample computes 2700 > `last_rpm`
= 2100, yet the call returns 2100, does not apply 2700, and the pending
decrease survives. -/
theorem increase_during_pending_not_applied_cex :
    (2100 : ℤ) < calculate_target_rpm pendingState.temperature_ranges 85 ∧
    pendingState.last_rpm = some 2100 ∧
    (get_rpm_for_temperature pendingState 85 25).1 = 2100 ∧
    (get_rpm_for_temperature pendingState 85 25).2.last_rpm = some 2100 ∧
    (get_rpm_for_temperature pendingState 85 25).2.pending_rpm_change =
      some 1300 := by
  norm_num [get_rpm_for_temperature, pendingState, calculate_target_rpm,
    inTempRange, defaultRanges, List.find?]

/-- C5 (amended): while a decrease is pending and the delay window has not
elapsed, any sample — whatever target it would compute — just returns the
still-elevated `last_rpm` and records the temperature; the pending target
and the window start are left untouched (they are never revised). -/
theorem pending_window_ignores_new_decrease
    (s : SmartState) (p lr : ℤ) (ct t now : ℚ)
    (hp : s.pending_rpm_change = some p)
    (hc : s.rpm_change_time = some ct)
    (hl : s.last_rpm = some lr)
    (hd : now - ct < s.rpm_change_delay) :
    get_rpm_for_temperature s t now =
      (lr, { s with last_temperature := some t }) := by
  obtain ⟨rs, en, olt, olr, op, oct, dl⟩ := s
  simp only at hp hc hl hd
  subst hp hc hl
  simp only [get_rpm_for_temperature]
  rw [if_pos hd]

/-- Witness for `pending_window_ignores_new_decrease` at a concrete pending
state and an in-window sample. -/
theorem pending_window_ignores_new_decrease_witness :
    get_rpm_for_temperature pendingState 55 25 =
      (2100, { temperature_ranges := defaultRanges, is_enabled := true,
               last_temperature := some 55, last_rpm := some 2100,
               pending_rpm_change := some 1300, rpm_change_time := some 20,
               rpm_change_delay := 10 }) :=
  pending_window_ignores_new_decrease pendingState 1300 2100 20 55 25
    rfl rfl rfl (by norm_num [pendingState])

/-- C5 counterexample: with the decrease to 1300 pending since time 20, a
55 °C sample at time 25 computes a *different* decrease target (1700 <
2100), but the pending target stays 1300 and the window start stays 20 —
the claimed update/reset does not happen. -/
theorem pending_update_not_applied_cex :
    calculate_target_rpm pendingState.temperature_ranges 55 = 1700 ∧
    (1700 : ℤ) < 2100 ∧ pendingState.pending_rpm_change = some 1300 ∧
    (1700 : ℤ) ≠ 1300 ∧
    (get_rpm_for_temperature pendingState 55 25).2.pending_rpm_change =
      some 1300 ∧
    (get_rpm_for_temperature pendingState 55 25).2.rpm_change_time =
      some 20 ∧
    (get_rpm_for_temperature pendingState 55 25).1 = 2100 := by
  norm_num [get_rpm_for_temperature, pendingState, calculate_target_rpm,
    inTempRange, defaultRanges, List.find?]

/-! ## Fan-curve controller: hysteresis under oscillating samples, and the
state invariant -/

/-- Iterate `get_rpm_for_temperature` over `(temperature, time)` samples,
keeping the final state. -/
def runSamples (s : SmartState) : List (ℚ × ℚ) → SmartState
  | [] => s
  | (t, now) :: rest => runSamples (get_rpm_for_temperature s t now).2 rest

/-- Every sample in the list lies within less than 1 °C of the temperature
recorded in the state it is delivered to (no constraint while none is
recorded): oscillation around a fixed point. -/
def oscOk : SmartState → List (ℚ × ℚ) → Bool
  | _, [] => true
  | s, (t, now) :: rest =>
    (match s.last_temperature with
     | none => true
     | some lt0 => decide (rabs (t - lt0) < 1)) &&
    oscOk (get_rpm_for_temperature s t now).2 rest

/-- With no pending decrease, a recorded temperature and rpm, a sample
within less than 1 °C is swallowed by hysteresis: the recorded rpm comes
back and the state is bit-for-bit unchanged. -/
theorem hysteresis_ignores_small_change
    (s : SmartState) (t now lt0 : ℚ) (lr : ℤ)
    (hp : s.pending_rpm_change = none)
    (hlt : s.last_temperature = some lt0)
    (hlr : s.last_rpm = some lr)
    (h : rabs (t - lt0) < 1) :
    get_rpm_for_temperature s t now = (lr, s) := by
  obtain ⟨rs, en, olt, olr, op, oct, dl⟩ := s
  simp only at hp hlt hlr
  subst hp hlt hlr
  cases oct <;> · simp only [get_rpm_for_temperature]; rw [if_pos h]

/-- A state with no pending decrease and recorded temperature/rpm is a
fixed point of any oscillating sample sequence. -/
theorem oscillation_fixes_state
    (s : SmartState) (lt0 : ℚ) (lr : ℤ) (samples : List (ℚ × ℚ))
    (hp : s.pending_rpm_change = none)
    (hlt : s.last_temperature = some lt0)
    (hlr : s.last_rpm = some lr)
    (hosc : oscOk s samples = true) :
    runSamples s samples = s := by
  induction samples with
  | nil => rfl
  | cons hd rest ih =>
    obtain ⟨t, now⟩ := hd
    rw [oscOk] at hosc
    rw [hlt] at hosc
    simp only [Bool.and_eq_true, decide_eq_true_eq] at hosc
    have hc := hysteresis_ignores_small_change s t now lt0 lr hp hlt hlr hosc.1
    rw [runSamples, hc]
    exact ih (by rw [hc] at hosc; exact hosc.2)

/-- The first sample on a fresh state (no recorded temperature or rpm, no
pending change) records the temperature and applies the computed target. -/
theorem first_reading_applies_target
    (s : SmartState) (t now : ℚ)
    (hp : s.pending_rpm_change = none)
    (hlt : s.last_temperature = none)
    (hlr : s.last_rpm = none) :
    get_rpm_for_temperature s t now =
      (calculate_target_rpm s.temperature_ranges t,
       { s with last_temperature := some t,
                last_rpm := some (calculate_target_rpm s.temperature_ranges t) }) := by
  obtain ⟨rs, en, olt, olr, op, oct, dl⟩ := s
  simp only at hp hlt hlr
  subst hp hlt hlr
  cases oct <;> rfl

/-- C3 (amended): starting from any state with no pending decrease in
which a recorded temperature and a recorded rpm exist together or not at
all (true of every state the public API can produce), feeding samples that
oscillate by less than 1 °C around the recorded point never changes
anything after the first sample: the final state is exactly the state
after the first call.  In particular — second conjunct — when a
temperature and rpm are already recorded, the very first call returns
`last_rpm` and leaves the whole controller state unchanged. -/
theorem hysteresis_oscillation_keeps_rpm
    (s : SmartState) (t0 now0 : ℚ) (rest : List (ℚ × ℚ))
    (hp : s.pending_rpm_change = none)
    (hiff : s.last_temperature.isSome ↔ s.last_rpm.isSome)
    (hosc : oscOk s ((t0, now0) :: rest) = true) :
    runSamples s ((t0, now0) :: rest) = (get_rpm_for_temperature s t0 now0).2 ∧
    (∀ lt0 lr, s.last_temperature = some lt0 → s.last_rpm = some lr →
      get_rpm_for_temperature s t0 now0 = (lr, s)) := by
  rw [oscOk] at hosc
  simp only [Bool.and_eq_true] at hosc
  cases hlt : s.last_temperature with
  | some lt0 =>
    have hlr : ∃ lr, s.last_rpm = some lr := by
      rw [hlt] at hiff
      simp only [Option.isSome_some, true_iff, Option.isSome_iff_exists] at hiff
      exact hiff
    obtain ⟨lr, hlr⟩ := hlr
    rw [hlt] at hosc
    simp only [decide_eq_true_eq] at hosc
    have hc := hysteresis_ignores_small_change s t0 now0 lt0 lr hp hlt hlr hosc.1
    constructor
    · rw [runSamples, hc]
      exact oscillation_fixes_state s lt0 lr rest hp hlt hlr
        (by rw [hc] at hosc; exact hosc.2)
    · intro lt1 lr1 h1 h2
      rw [hlr] at h2
      simp only [Option.some.injEq] at h1 h2
      subst h1; subst h2
      exact hc
  | none =>
    have hlr : s.last_rpm = none := by
      rw [hlt] at hiff
      simp only [Option.isSome_none, Bool.false_eq_true, false_iff,
        Option.isSome_iff_exists, not_exists] at hiff
      cases h : s.last_rpm with
      | none => rfl
      | some v => exact absurd h (hiff v)
    have hc := first_reading_applies_target s t0 now0 hp hlt hlr
    constructor
    · rw [runSamples, hc]
      refine oscillation_fixes_state _ t0
        (calculate_target_rpm s.temperature_ranges t0) rest hp rfl rfl ?_
      rw [hc] at hosc; exact hosc.2
    · intro lt1 lr1 h1 _
      exact Option.noConfusion h1

/-- Witness for `hysteresis_oscillation_keeps_rpm`: a fresh enabled state,
a first sample at 55 °C (applying 1700 RPM) and an oscillating second
sample at 55.5 °C; the final state equals the state after the first call. -/
theorem hysteresis_oscillation_keeps_rpm_witness :
    runSamples (initState defaultRanges true) [(55, 0), (111 / 2, 7)] =
      (get_rpm_for_temperature (initState defaultRanges true) 55 0).2 :=
  (hysteresis_oscillation_keeps_rpm (initState defaultRanges true) 55 0
    [(111 / 2, 7)] rfl (by simp [initState])
    (by norm_num [oscOk, get_rpm_for_temperature, smartEval, initState,
      rabs, calculate_target_rpm, inTempRange, defaultRanges,
      List.find?])).1

/-- C3 counterexample: from the (reachable, enabled) state `pendingState`
— pending decrease to 1300, `last_rpm = 2100`, window started at 20 — two
samples at exactly the recorded temperature 45 °C (oscillation of 0 °C)
are delivered at times 25 and 31; the second one applies the pending
decrease, so `last_rpm` changes after the first sample of the oscillating
sequence. -/
theorem hysteresis_oscillation_changes_rpm_cex :
    oscOk pendingState [(45, 25), (45, 31)] = true ∧
    pendingState.is_enabled = true ∧
    (get_rpm_for_temperature pendingState 45 25).2.last_rpm = some 2100 ∧
    (runSamples pendingState [(45, 25), (45, 31)]).last_rpm = some 1300 ∧
    (runSamples pendingState [(45, 25), (45, 31)]).last_rpm ≠
      (get_rpm_for_temperature pendingState 45 25).2.last_rpm := by
  norm_num [oscOk, runSamples, get_rpm_for_temperature, pendingState, rabs]

/-- The two mutating public operations of `SmartModeManager` that the
state-invariant claim quantifies over. -/
inductive ApiCall where
  | sample (t now : ℚ)
  | setEnabled (b : Bool)
deriving DecidableEq

/-- Run a sequence of API calls against the controller state. -/
def runCalls (s : SmartState) : List ApiCall → SmartState
  | [] => s
  | ApiCall.sample t now :: rest =>
    runCalls (get_rpm_for_temperature s t now).2 rest
  | ApiCall.setEnabled b :: rest => runCalls (set_enabled s b) rest

/-- The inductive invariant of the controller state: a pending decrease
always carries its timestamp and undercuts the recorded `last_rpm`, and a
temperature is recorded exactly when an rpm is. -/
def SmartInv (s : SmartState) : Prop :=
  (∀ p, s.pending_rpm_change = some p →
      s.rpm_change_time.isSome ∧ ∃ r, s.last_rpm = some r ∧ p < r) ∧
  (s.last_temperature.isSome ↔ s.last_rpm.isSome)

/-- Any single temperature sample preserves the state invariant. -/
theorem smartInv_step (s : SmartState) (t now : ℚ) (h : SmartInv s) :
    SmartInv (get_rpm_for_temperature s t now).2 := by
  obtain ⟨hpend, hiff⟩ := h
  obtain ⟨rs, en, olt, olr, op, oct, dl⟩ := s
  simp only [SmartInv] at hpend hiff ⊢
  cases op with
  | some p =>
    obtain ⟨hct, r, hlr, hpr⟩ := hpend p rfl
    cases oct with
    | none => simp at hct
    | some ct =>
      cases olr with
      | none => exact Option.noConfusion hlr
      | some lr =>
        simp only [Option.some.injEq] at hlr
        subst hlr
        simp only [get_rpm_for_temperature]
        split_ifs with hdelay
        · refine ⟨?_, by simp⟩
          intro q hq
          simp only [Option.some.injEq] at hq
          subst hq
          exact ⟨rfl, _, rfl, hpr⟩
        · exact ⟨by simp, by simp⟩
  | none =>
    cases olt with
    | none =>
      cases olr with
      | some lr => simp at hiff
      | none =>
        cases oct <;>
          · simp only [get_rpm_for_temperature, smartEval]
            exact ⟨by simp, by simp⟩
    | some lt0 =>
      cases olr with
      | none => simp at hiff
      | some lr =>
        cases oct <;>
          · simp only [get_rpm_for_temperature, smartEval]
            split_ifs with h1 h2 h3
            · exact ⟨by simp, by simp⟩
            · exact ⟨by simp, by simp⟩
            · refine ⟨?_, by simp⟩
              intro q hq
              simp only [Option.some.injEq] at hq
              subst hq
              exact ⟨rfl, lr, rfl, h3⟩
            · exact ⟨by simp, by simp⟩

/-- `set_enabled` preserves the state invariant. -/
theorem smartInv_set_enabled (s : SmartState) (b : Bool) (h : SmartInv s) :
    SmartInv (set_enabled s b) := by
  cases b with
  | true => exact ⟨by simp [set_enabled], by simp [set_enabled]⟩
  | false =>
    obtain ⟨h1, h2⟩ := h
    exact ⟨fun p hp => h1 p hp, h2⟩

/-- The invariant holds in every state reachable from a fresh manager. -/
theorem smartInv_runCalls (s : SmartState) (calls : List ApiCall)
    (h : SmartInv s) : SmartInv (runCalls s calls) := by
  induction calls generalizing s with
  | nil => exact h
  | cons c rest ih =>
    cases c with
    | sample t now => exact ih _ (smartInv_step s t now h)
    | setEnabled b => exact ih _ (smartInv_set_enabled s b h)

/-- Every call returns exactly the `last_rpm` of the state it leaves
behind — in particular `last_rpm` is set after any call. -/
theorem get_rpm_returns_last_rpm (s : SmartState) (t now : ℚ) :
    ((get_rpm_for_temperature s t now).2).last_rpm =
      some (get_rpm_for_temperature s t now).1 := by
  obtain ⟨rs, en, olt, olr, op, oct, dl⟩ := s
  cases op <;> cases oct <;> cases olr <;> cases olt <;>
    simp only [get_rpm_for_temperature, smartEval] <;>
    first
    | rfl
    | (split_ifs <;> rfl)

/-- C10: after any sequence of `get_rpm_for_temperature`/`set_enabled`
calls from a fresh manager state, a set `pending_rpm_change` comes with a
set `rpm_change_time` and a set, strictly larger `last_rpm`; and any
further call returns precisely the `last_rpm` it leaves in the state
(which is therefore set). -/
theorem controller_state_invariant (ranges : List TempRange) (en : Bool)
    (calls : List ApiCall) :
    (∀ p, (runCalls (initState ranges en) calls).pending_rpm_change = some p →
        (runCalls (initState ranges en) calls).rpm_change_time.isSome ∧
        ∃ r, (runCalls (initState ranges en) calls).last_rpm = some r ∧ p < r) ∧
    (∀ t now,
      ((get_rpm_for_temperature (runCalls (initState ranges en) calls) t now).2).last_rpm
        = some (get_rpm_for_temperature (runCalls (initState ranges en) calls) t now).1) :=
  ⟨(smartInv_runCalls (initState ranges en) calls
      ⟨fun p hp => Option.noConfusion hp, by simp [initState]⟩).1,
   fun t now => get_rpm_returns_last_rpm _ t now⟩

/-- The call sequence that reproduces `pendingState` from a fresh manager. -/
def pendingCalls : List ApiCall :=
  [ApiCall.setEnabled true, ApiCall.sample 75 0, ApiCall.sample 45 20]

/-- Sanity: the call sequence indeed produces `pendingState`. -/
theorem runCalls_pendingCalls :
    runCalls (initState defaultRanges false) pendingCalls = pendingState := by
  norm_num [runCalls, pendingCalls, get_rpm_for_temperature, smartEval,
    set_enabled, initState, pendingState, rabs, calculate_target_rpm,
    inTempRange, defaultRanges, List.find?]

/-- Witness for `controller_state_invariant` on the concrete call sequence
`pendingCalls`, whose final state has a pending decrease. -/
theorem controller_state_invariant_witness :
    ((runCalls (initState defaultRanges false) pendingCalls).rpm_change_time.isSome ∧
     ∃ r, (runCalls (initState defaultRanges false) pendingCalls).last_rpm =
        some r ∧ (1300 : ℤ) < r) ∧
    ((get_rpm_for_temperature
        (runCalls (initState defaultRanges false) pendingCalls) 45 31).2).last_rpm =
      some (get_rpm_for_temperature
        (runCalls (initState defaultRanges false) pendingCalls) 45 31).1 :=
  ⟨(controller_state_invariant defaultRanges false pendingCalls).1 1300
      (by rw [runCalls_pendingCalls]; rfl),
   (controller_state_invariant defaultRanges false pendingCalls).2 45 31⟩

/-! ## Telemetry decoder: precondition, round-trip and candidate order -/

/-- C7: any input shorter than 10 bytes or not starting with the marker
`0x03 0x5A 0xA5` decodes to nothing; and a synthetic 10-byte status frame
carrying 1300 little-endian at bytes 8–9 decodes to exactly 1300. -/
theorem decoder_precondition_and_roundtrip :
    (∀ data : List ℕ,
      data.length < 10 ∨ byteAt data 0 ≠ 0x03 ∨ byteAt data 1 ≠ 0x5a ∨
        byteAt data 2 ≠ 0xa5 →
      decode_rpm_data data = none) ∧
    decode_rpm_data [0x03, 0x5a, 0xa5, 0xef, 0x0b, 0, 0, 0, 0x14, 0x05] =
      some 1300 := by
  constructor
  · intro data h
    have hn : ¬ (isStatusFrame data = true) := by
      intro hc
      simp only [isStatusFrame, Bool.and_eq_true, decide_eq_true_eq] at hc
      obtain ⟨⟨⟨h10, h0⟩, h1⟩, h2⟩ := hc
      rcases h with h | h | h | h
      · omega
      · exact h h0
      · exact h h1
      · exact h h2
    unfold decode_rpm_data
    rw [if_neg hn]
  · decide

/-- Witness for the preconditional half of
`decoder_precondition_and_roundtrip`: a short frame and a frame with a
wrong marker byte both decode to nothing. -/
theorem decoder_precondition_witness :
    decode_rpm_data [0x03, 0x5a, 0xa5] = none ∧
    decode_rpm_data [0xff, 0x5a, 0xa5, 0, 0, 0, 0, 0, 0x14, 0x05] = none :=
  ⟨decoder_precondition_and_roundtrip.1 [0x03, 0x5a, 0xa5]
      (Or.inl (by decide)),
   decoder_precondition_and_roundtrip.1 [0xff, 0x5a, 0xa5, 0, 0, 0, 0, 0, 0x14, 0x05]
      (Or.inr (Or.inl (by decide)))⟩

/-- The candidate values the decoder actually probes, in evaluation order
(rpm_monitor.py lines 222–278): bytes 8–9 LE/BE, bytes 10–11 LE/BE, bytes
13–14 LE/BE, and bytes 14–15 *only through the scale loop* — LE×10, BE×10,
LE×100, BE×100 — each block present only when the frame is long enough. -/
def rpmCandidates (data : List ℕ) : List ℕ :=
  (if 10 ≤ data.length then
    [u16le (byteAt data 8) (byteAt data 9),
     u16be (byteAt data 8) (byteAt data 9)] else []) ++
  (if 12 ≤ data.length then
    [u16le (byteAt data 10) (byteAt data 11),
     u16be (byteAt data 10) (byteAt data 11)] else []) ++
  (if 15 ≤ data.length then
    [u16le (byteAt data 13) (byteAt data 14),
     u16be (byteAt data 13) (byteAt data 14)] else []) ++
  (if 16 ≤ data.length then
    [u16le (byteAt data 14) (byteAt data 15) * 10,
     u16be (byteAt data 14) (byteAt data 15) * 10,
     u16le (byteAt data 14) (byteAt data 15) * 100,
     u16be (byteAt data 14) (byteAt data 15) * 100] else [])

/-- `decodeM1` is the first-in-band scan of its candidate block. -/
theorem decodeM1_eq_find (data : List ℕ) :
    decodeM1 data =
      ((if 10 ≤ data.length then
        [u16le (byteAt data 8) (byteAt data 9),
         u16be (byteAt data 8) (byteAt data 9)] else []) : List ℕ).find?
        rpmInBand := by
  unfold decodeM1
  split_ifs with hl
  · simp only [List.find?]
    cases hA : rpmInBand (u16le (byteAt data 8) (byteAt data 9)) <;>
      cases hB : rpmInBand (u16be (byteAt data 8) (byteAt data 9)) <;>
      simp [hA, hB]
  · simp

/-- `decodeM2` is the first-in-band scan of its candidate block. -/
theorem decodeM2_eq_find (data : List ℕ) :
    decodeM2 data =
      ((if 12 ≤ data.length then
        [u16le (byteAt data 10) (byteAt data 11),
         u16be (byteAt data 10) (byteAt data 11)] else []) : List ℕ).find?
        rpmInBand := by
  unfold decodeM2
  split_ifs with hl
  · simp only [List.find?]
    cases hA : rpmInBand (u16le (byteAt data 10) (byteAt data 11)) <;>
      cases hB : rpmInBand (u16be (byteAt data 10) (byteAt data 11)) <;>
      simp [hA, hB]
  · simp

/-- `decodeM3` is the first-in-band scan of its candidate block. -/
theorem decodeM3_eq_find (data : List ℕ) :
    decodeM3 data =
      ((if 15 ≤ data.length then
        [u16le (byteAt data 13) (byteAt data 14),
         u16be (byteAt data 13) (byteAt data 14)] else []) : List ℕ).find?
        rpmInBand := by
  unfold decodeM3
  split_ifs with hl
  · simp only [List.find?]
    cases hA : rpmInBand (u16le (byteAt data 13) (byteAt data 14)) <;>
      cases hB : rpmInBand (u16be (byteAt data 13) (byteAt data 14)) <;>
      simp [hA, hB]
  · simp

/-- `decodeM4` is the first-in-band scan of its (scaled-only) block. -/
theorem decodeM4_eq_find (data : List ℕ) :
    decodeM4 data =
      ((if 16 ≤ data.length then
        [u16le (byteAt data 14) (byteAt data 15) * 10,
         u16be (byteAt data 14) (byteAt data 15) * 10,
         u16le (byteAt data 14) (byteAt data 15) * 100,
         u16be (byteAt data 14) (byteAt data 15) * 100] else []) :
        List ℕ).find? rpmInBand := by
  unfold decodeM4
  split_ifs with hl
  · simp only [List.find?]
    cases hA : rpmInBand (u16le (byteAt data 14) (byteAt data 15) * 10) <;>
      cases hB : rpmInBand (u16be (byteAt data 14) (byteAt data 15) * 10) <;>
      cases hC : rpmInBand (u16le (byteAt data 14) (byteAt data 15) * 100) <;>
      cases hD : rpmInBand (u16be (byteAt data 14) (byteAt data 15) * 100) <;>
      simp [hA, hB, hC, hD]
  · simp

/-- C6 (amended): on a status frame the decoder returns exactly the first
candidate within `[1000, 3000]` of the ordered candidate list
`rpmCandidates` — in which bytes 14–15 appear only scaled ×10 and ×100
(LE before BE at each scale) and never unscaled — and `none` when no
candidate is in band. -/
theorem decoder_candidate_order (data : List ℕ)
    (h : isStatusFrame data = true) :
    decode_rpm_data data = (rpmCandidates data).find? rpmInBand := by
  unfold decode_rpm_data rpmCandidates
  rw [if_pos h]
  rw [List.find?_append, List.find?_append, List.find?_append]
  rw [← decodeM1_eq_find, ← decodeM2_eq_find, ← decodeM3_eq_find,
    ← decodeM4_eq_find]
  cases h1 : decodeM1 data <;> cases h2 : decodeM2 data <;>
    cases h3 : decodeM3 data <;> simp [Option.or]

/-- Witness for `decoder_candidate_order` on the 10-byte round-trip frame. -/
theorem decoder_candidate_order_witness :
    decode_rpm_data [0x03, 0x5a, 0xa5, 0xef, 0x0b, 0, 0, 0, 0x14, 0x05] =
      (rpmCandidates [0x03, 0x5a, 0xa5, 0xef, 0x0b, 0, 0, 0, 0x14, 0x05]).find?
        rpmInBand :=
  decoder_candidate_order [0x03, 0x5a, 0xa5, 0xef, 0x0b, 0, 0, 0, 0x14, 0x05]
    (by decide)

/-- C6 counterexample: a 16-byte status frame whose bytes 14–15 hold 1300
little-endian (in band, unscaled) while no earlier candidate block yields
an in-band value; the claim says it decodes to 1300, but the code never
tries bytes 14–15 unscaled and returns nothing. -/
theorem decoder_bytes14_unscaled_cex :
    isStatusFrame
        [0x03, 0x5a, 0xa5, 0, 0, 0, 0, 0, 0, 0, 0, 0, 0, 0, 0x14, 0x05] = true ∧
    decodeM1 [0x03, 0x5a, 0xa5, 0, 0, 0, 0, 0, 0, 0, 0, 0, 0, 0, 0x14, 0x05] = none ∧
    decodeM2 [0x03, 0x5a, 0xa5, 0, 0, 0, 0, 0, 0, 0, 0, 0, 0, 0, 0x14, 0x05] = none ∧
    decodeM3 [0x03, 0x5a, 0xa5, 0, 0, 0, 0, 0, 0, 0, 0, 0, 0, 0, 0x14, 0x05] = none ∧
    u16le 0x14 0x05 = 1300 ∧ rpmInBand 1300 = true ∧
    decode_rpm_data
        [0x03, 0x5a, 0xa5, 0, 0, 0, 0, 0, 0, 0, 0, 0, 0, 0, 0x14, 0x05] ≠
      some 1300 := by
  decide

/-! ## Device locator: the vendor-id-only fallback -/

/-- A device with non-empty manufacturer/product strings containing
neither `BS2` nor `FLYDIGI`, but carrying the Flydigi vendor id. -/
def strangerDevice : HidDeviceInfo :=
  { vendor_id := some 0x37d7, product_id := some 0x1234,
    manufacturer_string := ['A', 'C', 'M', 'E'],
    product_string := ['K', 'E', 'Y', 'B', 'O', 'A', 'R', 'D'],
    path := none }

/-- C9: the last-resort vendor-id rule of `detect_bs2pro` fires for
`strangerDevice` although both of its string fields are present and match
nothing — the code returns the device, where spec and the code's own
comment (`when strings are empty/unavailable`) require the string fields
to be empty for rule 5. -/
theorem vendor_only_rule_matches_nonempty_strings :
    strangerDevice.manufacturer_string ≠ [] ∧
    strangerDevice.product_string ≠ [] ∧
    isBs2Product strangerDevice = false ∧
    isFlydigiManufacturer strangerDevice = false ∧
    vendorOnlyRule strangerDevice = true ∧
    detect_bs2pro [strangerDevice] = (some 0x37d7, some 0x1234, none) := by
  decide

/-! ## Command dispatcher: retry and reporting discipline -/

/-- C8: (a) when every attempt fails with a transient I/O or open failure,
the dispatcher makes exactly the five numbered attempts with one 200 ms
sleep between consecutive ones, invokes the status sink exactly once —
with a failure message, on the final attempt — and returns `False`;
(b) when the locator finds no device, it reports device-not-found and
returns `False` on the very first attempt, with no retry and no sleep. -/
theorem send_command_retry_behavior :
    (∀ env : ℕ → AttemptEnv,
      (∀ i, i < 5 →
        env i = AttemptEnv.sharedErr ∨ env i = AttemptEnv.openAllFail) →
      (send_command env).1 = false ∧
      ∃ s, isFailureStatus s = true ∧
        (send_command env).2 =
          [SendEvent.attemptStart 0, SendEvent.sleep200,
           SendEvent.attemptStart 1, SendEvent.sleep200,
           SendEvent.attemptStart 2, SendEvent.sleep200,
           SendEvent.attemptStart 3, SendEvent.sleep200,
           SendEvent.attemptStart 4, s] ∧
        (send_command env).2.filter isStatus = [s]) ∧
    (∀ env : ℕ → AttemptEnv, env 0 = AttemptEnv.noDevice →
      send_command env =
        (false, [SendEvent.attemptStart 0, SendEvent.statusDeviceNotFound])) := by
  constructor
  · intro env h
    rcases h 0 (by omega) with h0 | h0 <;>
    rcases h 1 (by omega) with h1 | h1 <;>
    rcases h 2 (by omega) with h2 | h2 <;>
    rcases h 3 (by omega) with h3 | h3 <;>
    rcases h 4 (by omega) with h4 | h4 <;>
    · simp only [send_command, send_command_go, h0, h1, h2, h3, h4]
      norm_num
      first
      | exact ⟨SendEvent.statusHidError, by decide, by decide⟩
      | exact ⟨SendEvent.statusOpenFailed, by decide, by decide⟩
  · intro env h
    simp [send_command, send_command_go, h]

/-- Witness for `send_command_retry_behavior`: the all-I/O-error
environment and the no-device environment. -/
theorem send_command_retry_behavior_witness :
    (send_command (fun _ => AttemptEnv.sharedErr)).1 = false ∧
    send_command (fun _ => AttemptEnv.noDevice) =
      (false, [SendEvent.attemptStart 0, SendEvent.statusDeviceNotFound]) :=
  ⟨(send_command_retry_behavior.1 (fun _ => AttemptEnv.sharedErr)
      (fun _ _ => Or.inl rfl)).1,
   send_command_retry_behavior.2 (fun _ => AttemptEnv.noDevice) rfl⟩

/-! ## Fan curve: monotonicity of the target-RPM map

The development below analyses `_calculate_target_rpm` over a range list
whose `[min_temp, max_temp)` bounds are ascending and non-overlapping.
Indices are accessed through a total accessor `rng`. -/

/-- Total indexing into a range list (only used under `i < length`). -/
def rng (R : List TempRange) (i : ℕ) : TempRange := R.getD i ⟨0, 0, 0⟩

theorem rng_eq_getElem (R : List TempRange) (i : ℕ) (h : i < R.length) :
    rng R i = R[i] := by
  simp [rng, List.getD_eq_getElem?_getD, List.getElem?_eq_getElem h]

theorem rabs_of_nonneg (x : ℚ) (h : 0 ≤ x) : rabs x = x := by
  unfold rabs
  rw [if_neg (not_lt.mpr h)]

theorem rabs_of_nonpos (x : ℚ) (h : x ≤ 0) : rabs x = -x := by
  unfold rabs
  split_ifs with h1
  · rfl
  · have hx : x = 0 := le_antisymm h (not_lt.mp h1)
    simp [hx]

/-- Well-formedness of a range list: each range is non-degenerate and
consecutive ranges do not overlap (`max ≤` next `min`). -/
theorem rng_minlt {R : List TempRange}
    (hne : ∀ r ∈ R, r.min_temp < r.max_temp) {i : ℕ} (h : i < R.length) :
    (rng R i).min_temp < (rng R i).max_temp := by
  rw [rng_eq_getElem R i h]
  exact hne _ (List.getElem_mem h)

theorem rng_adj {R : List TempRange}
    (hord : R.Chain' (fun a b => a.max_temp ≤ b.min_temp)) {i : ℕ}
    (h : i + 1 < R.length) :
    (rng R i).max_temp ≤ (rng R (i + 1)).min_temp := by
  have hh := List.chain'_iff_get.mp hord i (by omega)
  rw [rng_eq_getElem R i (by omega), rng_eq_getElem R (i + 1) h]
  simpa [List.get_eq_getElem] using hh

theorem rng_min_mono {R : List TempRange}
    (hne : ∀ r ∈ R, r.min_temp < r.max_temp)
    (hord : R.Chain' (fun a b => a.max_temp ≤ b.min_temp)) {i j : ℕ}
    (hij : i ≤ j) (hj : j < R.length) :
    (rng R i).min_temp ≤ (rng R j).min_temp := by
  induction j with
  | zero =>
    have : i = 0 := Nat.le_zero.mp hij
    subst this
    exact le_refl _
  | succ k ih =>
    by_cases hik : i = k + 1
    · subst hik; exact le_refl _
    · have h1 : (rng R i).min_temp ≤ (rng R k).min_temp :=
        ih (by omega) (by omega)
      have h2 := rng_minlt hne (show k < R.length by omega)
      have h3 := rng_adj hord hj
      linarith

theorem rng_max_mono {R : List TempRange}
    (hne : ∀ r ∈ R, r.min_temp < r.max_temp)
    (hord : R.Chain' (fun a b => a.max_temp ≤ b.min_temp)) {i j : ℕ}
    (hij : i ≤ j) (hj : j < R.length) :
    (rng R i).max_temp ≤ (rng R j).max_temp := by
  induction j with
  | zero =>
    have : i = 0 := Nat.le_zero.mp hij
    subst this
    exact le_refl _
  | succ k ih =>
    by_cases hik : i = k + 1
    · subst hik; exact le_refl _
    · have h1 : (rng R i).max_temp ≤ (rng R k).max_temp :=
        ih (by omega) (by omega)
      have h2 := rng_minlt hne hj
      have h3 := rng_adj hord hj
      linarith

theorem rng_sep {R : List TempRange}
    (hne : ∀ r ∈ R, r.min_temp < r.max_temp)
    (hord : R.Chain' (fun a b => a.max_temp ≤ b.min_temp)) {i j : ℕ}
    (hij : i < j) (hj : j < R.length) :
    (rng R i).max_temp ≤ (rng R j).min_temp := by
  have h1 := rng_adj hord (show i + 1 < R.length by omega)
  have h2 := rng_min_mono hne hord (show i + 1 ≤ j by omega) hj
  linarith

theorem rng_rpm_mono {R : List TempRange}
    (hrpm : R.Chain' (fun a b => a.rpm ≤ b.rpm)) {i j : ℕ}
    (hij : i ≤ j) (hj : j < R.length) :
    (rng R i).rpm ≤ (rng R j).rpm := by
  induction j with
  | zero =>
    have : i = 0 := Nat.le_zero.mp hij
    subst this
    exact le_refl _
  | succ k ih =>
    by_cases hik : i = k + 1
    · subst hik; exact le_refl _
    · have h1 : (rng R i).rpm ≤ (rng R k).rpm := ih (by omega) (by omega)
      have h2 : (rng R k).rpm ≤ (rng R (k + 1)).rpm := by
        have hh := List.chain'_iff_get.mp hrpm k (by omega)
        rw [rng_eq_getElem R k (by omega), rng_eq_getElem R (k + 1) hj]
        simpa [List.get_eq_getElem] using hh
      exact le_trans h1 h2

theorem center_gt_min {R : List TempRange}
    (hne : ∀ r ∈ R, r.min_temp < r.max_temp) {i : ℕ} (h : i < R.length) :
    (rng R i).min_temp < center (rng R i) := by
  have := rng_minlt hne h
  unfold center
  linarith

theorem center_lt_max {R : List TempRange}
    (hne : ∀ r ∈ R, r.min_temp < r.max_temp) {i : ℕ} (h : i < R.length) :
    center (rng R i) < (rng R i).max_temp := by
  have := rng_minlt hne h
  unfold center
  linarith

theorem center_mono {R : List TempRange}
    (hne : ∀ r ∈ R, r.min_temp < r.max_temp)
    (hord : R.Chain' (fun a b => a.max_temp ≤ b.min_temp)) {i j : ℕ}
    (hij : i < j) (hj : j < R.length) :
    center (rng R i) < center (rng R j) := by
  have h1 := center_lt_max hne (show i < R.length by omega)
  have h2 := rng_sep hne hord hij hj
  have h3 := center_gt_min hne hj
  linarith

/-- An already-ascending range list is fixed by the sorting step. -/
theorem sortRanges_eq {R : List TempRange}
    (hne : ∀ r ∈ R, r.min_temp < r.max_temp)
    (hord : R.Chain' (fun a b => a.max_temp ≤ b.min_temp)) :
    sortRanges R = R := by
  apply List.Sorted.insertionSort_eq
  apply List.pairwise_iff_get.mpr
  intro i j hij
  simp only [List.get_eq_getElem]
  rw [← rng_eq_getElem R i.val i.isLt, ← rng_eq_getElem R j.val j.isLt]
  exact rng_min_mono hne hord (le_of_lt hij) j.isLt

/-- `find?` returns the marked element of a split whose prefix all fails. -/
theorem find?_first_of_split {α : Type} (p : α → Bool) (l1 : List α) (x : α)
    (l2 : List α) (h1 : ∀ y ∈ l1, p y = false) (hx : p x = true) :
    (l1 ++ x :: l2).find? p = some x := by
  induction l1 with
  | nil => simp [List.find?_cons, hx]
  | cons a l ih =>
    rw [List.cons_append, List.find?_cons_of_neg _
      (by simp [h1 a (List.mem_cons_self a l)])]
    exact ih fun y hy => h1 y (List.mem_cons_of_mem a hy)

/-- `find?` over the half-open-interval test fails everywhere when no
index matches. -/
theorem calc_find_none (R : List TempRange) (t : ℚ)
    (h : ∀ j, j < R.length →
      ¬((rng R j).min_temp ≤ t ∧ t < (rng R j).max_temp)) :
    R.find? (inTempRange t) = none := by
  rw [List.find?_eq_none]
  intro x hx hpx
  obtain ⟨j, hj, hje⟩ := List.mem_iff_getElem.mp hx
  simp only [inTempRange, Bool.and_eq_true, decide_eq_true_eq] at hpx
  refine h j hj ?_
  rw [rng_eq_getElem R j hj, hje]
  exact hpx

/-- Unfolding of `calculate_target_rpm` past a failed exact match on an
already-sorted non-empty list. -/
theorem calc_eq_of_cons (t : ℚ) (r0 : TempRange) (rest : List TempRange)
    (hfind : (r0 :: rest).find? (inTempRange t) = none)
    (hsort : sortRanges (r0 :: rest) = r0 :: rest) :
    calculate_target_rpm (r0 :: rest) t =
      (if t < r0.min_temp then r0.rpm
       else if ((r0 :: rest).getLast (List.cons_ne_nil _ _)).max_temp ≤ t then
         ((r0 :: rest).getLast (List.cons_ne_nil _ _)).rpm
       else
         match (closestLoop t (r0 :: rest) (none, none)).1 with
         | some rc => rc.rpm
         | none => 1300) := by
  unfold calculate_target_rpm
  rw [hfind, hsort]

/-- Evaluation below every range: the first (lowest) range's rpm. -/
theorem calc_below {R : List TempRange}
    (hne : ∀ r ∈ R, r.min_temp < r.max_temp)
    (hord : R.Chain' (fun a b => a.max_temp ≤ b.min_temp))
    (hR : R ≠ []) (t : ℚ) (h : t < (rng R 0).min_temp) :
    calculate_target_rpm R t = (rng R 0).rpm := by
  have hfind : R.find? (inTempRange t) = none := by
    refine calc_find_none R t fun j hj hc => ?_
    have hmin := rng_min_mono hne hord (Nat.zero_le j) hj
    exact absurd hc.1 (not_le.mpr (lt_of_lt_of_le h hmin))
  have hsort := sortRanges_eq hne hord
  obtain ⟨r0, rest, rfl⟩ : ∃ r0 rest, R = r0 :: rest := by
    cases R with
    | nil => exact absurd rfl hR
    | cons a l => exact ⟨a, l, rfl⟩
  rw [calc_eq_of_cons t r0 rest hfind hsort]
  rw [if_pos (show t < r0.min_temp from h)]
  rfl

/-- Evaluation at/above the top range's `max_temp`: the last range's rpm. -/
theorem calc_above {R : List TempRange}
    (hne : ∀ r ∈ R, r.min_temp < r.max_temp)
    (hord : R.Chain' (fun a b => a.max_temp ≤ b.min_temp))
    (hR : R ≠ []) (t : ℚ) (h : (rng R (R.length - 1)).max_temp ≤ t) :
    calculate_target_rpm R t = (rng R (R.length - 1)).rpm := by
  have hfind : R.find? (inTempRange t) = none := by
    refine calc_find_none R t fun j hj hc => ?_
    have hmax := rng_max_mono hne hord (show j ≤ R.length - 1 by omega)
      (show R.length - 1 < R.length by omega)
    exact absurd hc.2 (not_lt.mpr (le_trans (le_trans hmax h) (le_refl t)))
  have hsort := sortRanges_eq hne hord
  obtain ⟨r0, rest, rfl⟩ : ∃ r0 rest, R = r0 :: rest := by
    cases R with
    | nil => exact absurd rfl hR
    | cons a l => exact ⟨a, l, rfl⟩
  rw [calc_eq_of_cons t r0 rest hfind hsort]
  have hlast : (r0 :: rest).getLast (List.cons_ne_nil _ _) =
      rng (r0 :: rest) ((r0 :: rest).length - 1) := by
    rw [List.getLast_eq_getElem,
      rng_eq_getElem _ _ (show (r0 :: rest).length - 1 < (r0 :: rest).length by
        simp)]
  have hnb : ¬ t < r0.min_temp := by
    have h0 : (rng (r0 :: rest) 0).min_temp < (rng (r0 :: rest) 0).max_temp :=
      rng_minlt hne (by simp)
    have hmax := rng_max_mono hne hord (Nat.zero_le ((r0 :: rest).length - 1))
      (show (r0 :: rest).length - 1 < (r0 :: rest).length by simp)
    have : (rng (r0 :: rest) 0).min_temp ≤ t := by linarith
    exact not_lt.mpr this
  rw [if_neg hnb, hlast, if_pos h]

/-- Evaluation inside range `i`: the exact half-open-interval match wins. -/
theorem calc_exact {R : List TempRange}
    (hne : ∀ r ∈ R, r.min_temp < r.max_temp)
    (hord : R.Chain' (fun a b => a.max_temp ≤ b.min_temp)) {i : ℕ}
    (hi : i < R.length) (t : ℚ)
    (h1 : (rng R i).min_temp ≤ t) (h2 : t < (rng R i).max_temp) :
    calculate_target_rpm R t = (rng R i).rpm := by
  have hsplit : R = R.take i ++ R[i] :: R.drop (i + 1) := by
    conv_lhs => rw [← List.take_append_drop i R]
    rw [List.drop_eq_getElem_cons hi]
  have hfind : R.find? (inTempRange t) = some (R[i]) := by
    conv_lhs => rw [hsplit]
    apply find?_first_of_split
    · intro y hy
      obtain ⟨j, hj, hje⟩ := List.mem_iff_getElem.mp hy
      have hji : j < i := by
        have := hj
        simp only [List.length_take] at this
        omega
      have hjR : j < R.length := by omega
      have hyj : y = R[j] := by
        rw [← hje]
        simp [List.getElem_take]
      have hsep := rng_sep hne hord hji hi
      have : ¬ t < (rng R j).max_temp := not_lt.mpr (by linarith)
      rw [hyj]
      simp only [inTempRange, Bool.and_eq_false_iff, decide_eq_false_iff_not]
      right
      rw [← rng_eq_getElem R j hjR]
      exact this
    · simp only [inTempRange, Bool.and_eq_true, decide_eq_true_eq]
      rw [← rng_eq_getElem R i hi]
      exact ⟨h1, h2⟩
  unfold calculate_target_rpm
  rw [hfind, rng_eq_getElem R i hi]

/-- The midpoint between the centres of ranges `i` and `i+1`: inside a gap
this is where the closest-centre selection switches sides. -/
def gapMid (R : List TempRange) (i : ℕ) : ℚ :=
  (center (rng R i) + center (rng R (i + 1))) / 2

theorem mem_take_idx {α : Type} (L : List α) (i : ℕ) (x : α)
    (hx : x ∈ L.take i) : ∃ j, ∃ hj : j < L.length, j < i ∧ x = L[j] := by
  obtain ⟨j, hj, hje⟩ := List.mem_iff_getElem.mp hx
  have hji : j < i := by
    have := hj
    simp only [List.length_take] at this
    omega
  have hjL : j < L.length := by
    have := hj
    simp only [List.length_take] at this
    omega
  refine ⟨j, hjL, hji, ?_⟩
  rw [← hje]
  simp [List.getElem_take]

theorem mem_drop_idx {α : Type} (L : List α) (i : ℕ) (x : α)
    (hx : x ∈ L.drop i) : ∃ j, ∃ hj : j < L.length, i ≤ j ∧ x = L[j] := by
  obtain ⟨k, hk, hke⟩ := List.mem_iff_getElem.mp hx
  have hkL : i + k < L.length := by
    have := hk
    simp only [List.length_drop] at this
    omega
  refine ⟨i + k, hkL, by omega, ?_⟩
  rw [← hke]
  simp [List.getElem_drop]

theorem closestLoop_start (t : ℚ) (x : TempRange) (xs : List TempRange) :
    closestLoop t (x :: xs) (none, none) =
      closestLoop t xs (some x, some (centerDist t x)) := rfl

theorem closestLoop_append (t : ℚ) (a b : List TempRange)
    (acc : Option TempRange × Option ℚ) :
    closestLoop t (a ++ b) acc = closestLoop t b (closestLoop t a acc) := by
  induction a generalizing acc with
  | nil => rfl
  | cons x xs ih =>
    obtain ⟨best, bd⟩ := acc
    cases bd with
    | none =>
      rw [List.cons_append]
      show closestLoop t (xs ++ b) (some x, some (centerDist t x)) = _
      rw [ih]
      rfl
    | some m =>
      rw [List.cons_append]
      simp only [closestLoop]
      by_cases hlt : centerDist t x < m
      · rw [if_pos hlt, if_pos hlt, ih]
      · rw [if_neg hlt, if_neg hlt, ih]

theorem closestLoop_keep (t : ℚ) (L : List TempRange) (b : TempRange)
    (d : ℚ) (h : ∀ x ∈ L, ¬ centerDist t x < d) :
    closestLoop t L (some b, some d) = (some b, some d) := by
  induction L with
  | nil => rfl
  | cons x xs ih =>
    show closestLoop t (x :: xs) (some b, some d) = _
    rw [closestLoop]
    rw [if_neg (h x (List.mem_cons_self x xs))]
    exact ih fun y hy => h y (List.mem_cons_of_mem x hy)

theorem closestLoop_bound (t : ℚ) (L : List TempRange) (D : ℚ)
    (b : TempRange) (d : ℚ) (hd : D < d)
    (h : ∀ x ∈ L, D < centerDist t x) :
    ∃ b' d', closestLoop t L (some b, some d) = (some b', some d') ∧
      D < d' := by
  induction L generalizing b d with
  | nil => exact ⟨b, d, rfl, hd⟩
  | cons x xs ih =>
    show ∃ b' d', closestLoop t (x :: xs) (some b, some d) = _ ∧ _
    rw [closestLoop]
    by_cases hlt : centerDist t x < d
    · rw [if_pos hlt]
      exact ih x (centerDist t x) (h x (List.mem_cons_self x xs))
        fun y hy => h y (List.mem_cons_of_mem x hy)
    · rw [if_neg hlt]
      exact ih b d hd fun y hy => h y (List.mem_cons_of_mem x hy)

/-- The closest-range loop returns the first range attaining the minimum
centre distance: if everything before index `i` is strictly farther and
everything after is at least as far, the loop selects index `i`. -/
theorem closestLoop_first_argmin (t : ℚ) (L : List TempRange) (i : ℕ)
    (hi : i < L.length)
    (hbefore : ∀ j, ∀ hj : j < L.length, j < i →
      centerDist t L[i] < centerDist t L[j])
    (hafter : ∀ j, ∀ hj : j < L.length, i < j →
      centerDist t L[i] ≤ centerDist t L[j]) :
    (closestLoop t L (none, none)).1 = some L[i] := by
  have hsplit : L = L.take i ++ L[i] :: L.drop (i + 1) := by
    conv_lhs => rw [← List.take_append_drop i L]
    rw [List.drop_eq_getElem_cons hi]
  have hdrop : ∀ x ∈ L.drop (i + 1), ¬ centerDist t x < centerDist t L[i] := by
    intro x hx
    obtain ⟨j, hjL, hij, rfl⟩ := mem_drop_idx L (i + 1) x hx
    exact not_lt.mpr (hafter j hjL (by omega))
  by_cases hi0 : i = 0
  · subst hi0
    conv_lhs => rw [hsplit]
    rw [List.take_zero, List.nil_append, closestLoop_start,
      closestLoop_keep t _ _ _ hdrop]
  · obtain ⟨y, ys, hty⟩ : ∃ y ys, L.take i = y :: ys := by
      cases hc : L.take i with
      | nil =>
        exfalso
        have : (L.take i).length = i := by
          simp only [List.length_take]
          omega
        rw [hc] at this
        simp at this
        omega
      | cons a l => exact ⟨a, l, rfl⟩
    have htake : ∀ x ∈ L.take i, centerDist t L[i] < centerDist t x := by
      intro x hx
      obtain ⟨j, hjL, hji, rfl⟩ := mem_take_idx L i x hx
      exact hbefore j hjL hji
    have hy : centerDist t L[i] < centerDist t y :=
      htake y (by rw [hty]; exact List.mem_cons_self y ys)
    have hys : ∀ x ∈ ys, centerDist t L[i] < centerDist t x := by
      intro x hx
      exact htake x (by rw [hty]; exact List.mem_cons_of_mem y hx)
    conv_lhs => rw [hsplit, closestLoop_append, hty, closestLoop_start]
    obtain ⟨b', d', heq, hd'⟩ :=
      closestLoop_bound t ys (centerDist t L[i]) y (centerDist t y) hy hys
    rw [heq]
    show (closestLoop t (L[i] :: L.drop (i + 1)) (some b', some d')).1 = _
    rw [closestLoop]
    rw [if_pos hd', closestLoop_keep t _ _ _ hdrop]

/-- Evaluation in the left part of a gap (at or nearer the lower range's
side of the centre midpoint): the lower range's rpm. -/
theorem calc_gap_left {R : List TempRange}
    (hne : ∀ r ∈ R, r.min_temp < r.max_temp)
    (hord : R.Chain' (fun a b => a.max_temp ≤ b.min_temp)) {i : ℕ}
    (hi : i + 1 < R.length) (t : ℚ)
    (hg1 : (rng R i).max_temp ≤ t) (hg2 : t < (rng R (i + 1)).min_temp)
    (hm : t ≤ gapMid R i) :
    calculate_target_rpm R t = (rng R i).rpm := by
  have hRne : R ≠ [] := by
    intro hc
    rw [hc] at hi
    simp at hi
  -- distances: below/at i the temperature is at or above the centre,
  -- beyond i it is below the centre
  have hdistle : ∀ j, j ≤ i → ∀ hj : j < R.length,
      centerDist t (rng R j) = t - center (rng R j) := by
    intro j hji hj
    have hc1 : center (rng R j) < (rng R j).max_temp := center_lt_max hne hj
    have hc2 : (rng R j).max_temp ≤ (rng R i).max_temp :=
      rng_max_mono hne hord hji (by omega)
    unfold centerDist
    rw [rabs_of_nonneg]
    linarith
  have hdistge : ∀ j, i + 1 ≤ j → ∀ hj : j < R.length,
      centerDist t (rng R j) = center (rng R j) - t := by
    intro j hji hj
    have hc1 : (rng R j).min_temp < center (rng R j) := center_gt_min hne hj
    have hc2 : (rng R (i + 1)).min_temp ≤ (rng R j).min_temp :=
      rng_min_mono hne hord hji hj
    unfold centerDist
    rw [rabs_of_nonpos]
    · ring
    · linarith
  have hfind : R.find? (inTempRange t) = none := by
    refine calc_find_none R t fun j hj hc => ?_
    rcases le_or_lt j i with hji | hji
    · have := rng_max_mono hne hord hji (show i < R.length by omega)
      exact absurd hc.2 (not_lt.mpr (by linarith))
    · have := rng_min_mono hne hord (show i + 1 ≤ j by omega) hj
      exact absurd hc.1 (not_le.mpr (by linarith))
  have hsort := sortRanges_eq hne hord
  obtain ⟨r0, rest, hRc⟩ : ∃ r0 rest, R = r0 :: rest := by
    cases R with
    | nil => exact absurd rfl hRne
    | cons a l => exact ⟨a, l, rfl⟩
  have hnb : ¬ t < (rng R 0).min_temp := by
    have h0 := rng_minlt hne (show 0 < R.length by omega)
    have hmax := rng_max_mono hne hord (Nat.zero_le i) (by omega)
    exact not_lt.mpr (by linarith)
  have hna : ¬ (rng R (R.length - 1)).max_temp ≤ t := by
    have hminl := rng_min_mono hne hord (show i + 1 ≤ R.length - 1 by omega)
      (show R.length - 1 < R.length by omega)
    have hml := rng_minlt hne (show R.length - 1 < R.length by omega)
    exact not_le.mpr (by linarith)
  -- the closest-centre selection picks index i
  have hiR : i < R.length := by omega
  have hsel : (closestLoop t R (none, none)).1 = some R[i] := by
    apply closestLoop_first_argmin t R i hiR
    · intro j hj hji
      rw [← rng_eq_getElem R i (by omega), ← rng_eq_getElem R j hj]
      rw [hdistle i (le_refl i) (by omega), hdistle j (by omega) hj]
      have := center_mono hne hord hji (show i < R.length by omega)
      linarith
    · intro j hj hji
      rw [← rng_eq_getElem R i (by omega), ← rng_eq_getElem R j hj]
      rw [hdistle i (le_refl i) (by omega), hdistge j (by omega) hj]
      have hcj : center (rng R (i + 1)) ≤ center (rng R j) := by
        rcases Nat.eq_or_lt_of_le (show i + 1 ≤ j by omega) with hq | hq
        · rw [hq]
        · exact le_of_lt (center_mono hne hord hq hj)
      have hmid : t - center (rng R i) ≤ center (rng R (i + 1)) - t := by
        unfold gapMid at hm
        linarith
      linarith
  subst hRc
  rw [calc_eq_of_cons t r0 rest hfind hsort]
  rw [List.getLast_eq_getElem, ← rng_eq_getElem _ _
    (show (r0 :: rest).length - 1 < (r0 :: rest).length by simp)]
  rw [if_neg (show ¬ t < r0.min_temp from hnb), if_neg hna, hsel,
    ← rng_eq_getElem _ _ hiR]

/-- Evaluation in the right part of a gap (strictly past the centre
midpoint): the upper range's rpm. -/
theorem calc_gap_right {R : List TempRange}
    (hne : ∀ r ∈ R, r.min_temp < r.max_temp)
    (hord : R.Chain' (fun a b => a.max_temp ≤ b.min_temp)) {i : ℕ}
    (hi : i + 1 < R.length) (t : ℚ)
    (hg1 : (rng R i).max_temp ≤ t) (hg2 : t < (rng R (i + 1)).min_temp)
    (hm : gapMid R i < t) :
    calculate_target_rpm R t = (rng R (i + 1)).rpm := by
  have hRne : R ≠ [] := by
    intro hc
    rw [hc] at hi
    simp at hi
  have hdistle : ∀ j, j ≤ i → ∀ hj : j < R.length,
      centerDist t (rng R j) = t - center (rng R j) := by
    intro j hji hj
    have hc1 : center (rng R j) < (rng R j).max_temp := center_lt_max hne hj
    have hc2 : (rng R j).max_temp ≤ (rng R i).max_temp :=
      rng_max_mono hne hord hji (by omega)
    unfold centerDist
    rw [rabs_of_nonneg]
    linarith
  have hdistge : ∀ j, i + 1 ≤ j → ∀ hj : j < R.length,
      centerDist t (rng R j) = center (rng R j) - t := by
    intro j hji hj
    have hc1 : (rng R j).min_temp < center (rng R j) := center_gt_min hne hj
    have hc2 : (rng R (i + 1)).min_temp ≤ (rng R j).min_temp :=
      rng_min_mono hne hord hji hj
    unfold centerDist
    rw [rabs_of_nonpos]
    · ring
    · linarith
  have hfind : R.find? (inTempRange t) = none := by
    refine calc_find_none R t fun j hj hc => ?_
    rcases le_or_lt j i with hji | hji
    · have := rng_max_mono hne hord hji (show i < R.length by omega)
      exact absurd hc.2 (not_lt.mpr (by linarith))
    · have := rng_min_mono hne hord (show i + 1 ≤ j by omega) hj
      exact absurd hc.1 (not_le.mpr (by linarith))
  have hsort := sortRanges_eq hne hord
  obtain ⟨r0, rest, hRc⟩ : ∃ r0 rest, R = r0 :: rest := by
    cases R with
    | nil => exact absurd rfl hRne
    | cons a l => exact ⟨a, l, rfl⟩
  have hnb : ¬ t < (rng R 0).min_temp := by
    have h0 := rng_minlt hne (show 0 < R.length by omega)
    have hmax := rng_max_mono hne hord (Nat.zero_le i) (by omega)
    exact not_lt.mpr (by linarith)
  have hna : ¬ (rng R (R.length - 1)).max_temp ≤ t := by
    have hminl := rng_min_mono hne hord (show i + 1 ≤ R.length - 1 by omega)
      (show R.length - 1 < R.length by omega)
    have hml := rng_minlt hne (show R.length - 1 < R.length by omega)
    exact not_le.mpr (by linarith)
  have hmid : center (rng R (i + 1)) - t < t - center (rng R i) := by
    unfold gapMid at hm
    linarith
  have hsel : (closestLoop t R (none, none)).1 = some R[i + 1] := by
    apply closestLoop_first_argmin t R (i + 1) hi
    · intro j hj hji
      rw [← rng_eq_getElem R (i + 1) (by omega), ← rng_eq_getElem R j hj]
      rw [hdistge (i + 1) (le_refl _) (by omega), hdistle j (by omega) hj]
      have hcj : center (rng R j) ≤ center (rng R i) := by
        rcases Nat.eq_or_lt_of_le (show j ≤ i by omega) with hq | hq
        · rw [hq]
        · exact le_of_lt (center_mono hne hord hq (by omega))
      linarith
    · intro j hj hji
      rw [← rng_eq_getElem R (i + 1) (by omega), ← rng_eq_getElem R j hj]
      rw [hdistge (i + 1) (le_refl _) (by omega), hdistge j (by omega) hj]
      have := center_mono hne hord hji hj
      linarith
  subst hRc
  rw [calc_eq_of_cons t r0 rest hfind hsort]
  rw [List.getLast_eq_getElem, ← rng_eq_getElem _ _
    (show (r0 :: rest).length - 1 < (r0 :: rest).length by simp)]
  rw [if_neg (show ¬ t < r0.min_temp from hnb), if_neg hna, hsel,
    ← rng_eq_getElem _ _ hi]

/-- Index `k` (used for `1 ≤ k < length`) has been "passed" by
temperature `t`: either `t` has reached range `k`'s lower bound, or `t`
sits inside the gap below range `k`, strictly past the midpoint of the
two adjacent centres. -/
def passedIdx (R : List TempRange) (t : ℚ) (k : ℕ) : Prop :=
  (rng R k).min_temp ≤ t ∨
  ((rng R (k - 1)).max_temp ≤ t ∧
   (rng R (k - 1)).max_temp < (rng R k).min_temp ∧ gapMid R (k - 1) < t)

/-- Being passed is upward closed in the temperature. -/
theorem passedIdx_mono {R : List TempRange} {t1 t2 : ℚ} {k : ℕ}
    (h : t1 ≤ t2) (hp : passedIdx R t1 k) : passedIdx R t2 k := by
  rcases hp with hp | ⟨h1, h2, h3⟩
  · exact Or.inl (le_trans hp h)
  · exact Or.inr ⟨le_trans h1 h, h2, lt_of_lt_of_le h3 h⟩

/-- The largest index below a bound satisfying a predicate that holds at
0, together with its maximality. -/
theorem findGreatest_exists (P : ℕ → Prop) [DecidablePred P] (b : ℕ)
    (h0 : P 0) : ∃ m, m ≤ b ∧ P m ∧ ∀ k, m < k → k ≤ b → ¬ P k :=
  ⟨Nat.findGreatest P b, Nat.findGreatest_le _,
    Nat.findGreatest_spec (Nat.zero_le _) h0,
    fun _ hk hkb => Nat.findGreatest_is_greatest hk hkb⟩

/-- A temperature that is neither below all ranges nor at/above the last
range's upper bound lies in some range or in some gap between two
consecutive ranges. -/
theorem region_cases {R : List TempRange} (hRne : R ≠ []) (t : ℚ)
    (hnb : ¬ t < (rng R 0).min_temp)
    (hna : ¬ (rng R (R.length - 1)).max_temp ≤ t) :
    (∃ i, i < R.length ∧ (rng R i).min_temp ≤ t ∧ t < (rng R i).max_temp) ∨
    (∃ i, i + 1 < R.length ∧ (rng R i).max_temp ≤ t ∧
      t < (rng R (i + 1)).min_temp) := by
  have hlen : 0 < R.length := List.length_pos.mpr hRne
  have hP0 : (rng R 0).min_temp ≤ t := not_lt.mp hnb
  obtain ⟨istar, histar, hPi, hgr⟩ :=
    findGreatest_exists (fun i => (rng R i).min_temp ≤ t) (R.length - 1) hP0
  by_cases hcase : t < (rng R istar).max_temp
  · exact Or.inl ⟨istar, by omega, hPi, hcase⟩
  · have hne1 : istar ≠ R.length - 1 := by
      intro hq
      rw [hq] at hcase
      exact hna (not_lt.mp hcase)
    have h1 : istar + 1 < R.length := by omega
    have h2 := hgr (istar + 1) (by omega) (by omega)
    exact Or.inr ⟨istar, h1, not_lt.mp hcase, not_le.mp h2⟩

/-- The owner characterisation of `_calculate_target_rpm` on a
well-formed range list: every temperature is served by the rpm of a
single index `o`, and `o` is exactly the highest passed index. -/
theorem owner_exists {R : List TempRange}
    (hne : ∀ r ∈ R, r.min_temp < r.max_temp)
    (hord : R.Chain' (fun a b => a.max_temp ≤ b.min_temp))
    (hRne : R ≠ []) (t : ℚ) :
    ∃ o, o < R.length ∧ calculate_target_rpm R t = (rng R o).rpm ∧
      (∀ k, 1 ≤ k → k ≤ o → passedIdx R t k) ∧
      (∀ k, o < k → k < R.length → ¬ passedIdx R t k) := by
  have hlen : 0 < R.length := List.length_pos.mpr hRne
  by_cases hb : t < (rng R 0).min_temp
  · refine ⟨0, hlen, calc_below hne hord hRne t hb, ?_, ?_⟩
    · intro k h1 h2
      omega
    · intro k hk0 hkR hp
      rcases hp with hp | ⟨h1, h2, h3⟩
      · have := rng_min_mono hne hord (Nat.zero_le k) hkR
        linarith
      · have hm := rng_min_mono hne hord (Nat.zero_le (k - 1)) (by omega)
        have hml := rng_minlt hne (show k - 1 < R.length by omega)
        linarith
  · by_cases ha : (rng R (R.length - 1)).max_temp ≤ t
    · refine ⟨R.length - 1, by omega, calc_above hne hord hRne t ha, ?_, ?_⟩
      · intro k h1 h2
        left
        have h3 := rng_min_mono hne hord h2
          (show R.length - 1 < R.length by omega)
        have h4 := rng_minlt hne (show R.length - 1 < R.length by omega)
        linarith
      · intro k hk1 hk2
        omega
    · rcases region_cases hRne t hb ha with ⟨i, hi, h1, h2⟩ | ⟨i, hi, h1, h2⟩
      · refine ⟨i, hi, calc_exact hne hord hi t h1 h2, ?_, ?_⟩
        · intro k hk1 hk2
          exact Or.inl (le_trans (rng_min_mono hne hord hk2 hi) h1)
        · intro k hik hkR hp
          rcases hp with hp | ⟨hp1, hp2, hp3⟩
          · have := rng_sep hne hord hik hkR
            linarith
          · have := rng_max_mono hne hord (show i ≤ k - 1 by omega)
              (show k - 1 < R.length by omega)
            linarith
      · by_cases hm : t ≤ gapMid R i
        · refine ⟨i, by omega, calc_gap_left hne hord hi t h1 h2 hm, ?_, ?_⟩
          · intro k hk1 hk2
            left
            have h3 := rng_min_mono hne hord hk2 (by omega)
            have h4 := rng_minlt hne (show i < R.length by omega)
            linarith
          · intro k hik hkR hp
            rcases hp with hp | ⟨hp1, hp2, hp3⟩
            · have := rng_min_mono hne hord (show i + 1 ≤ k from hik) hkR
              linarith
            · by_cases hk : k = i + 1
              · subst hk
                simp only [Nat.add_sub_cancel] at hp3
                linarith
              · have hk1 : i + 1 ≤ k - 1 := by omega
                have h5 := rng_max_mono hne hord hk1
                  (show k - 1 < R.length by omega)
                have h6 := rng_minlt hne (show i + 1 < R.length from hi)
                linarith
        · refine ⟨i + 1, hi,
            calc_gap_right hne hord hi t h1 h2 (not_le.mp hm), ?_, ?_⟩
          · intro k hk1 hk2
            by_cases hk : k = i + 1
            · subst hk
              right
              simp only [Nat.add_sub_cancel]
              exact ⟨h1, by linarith, not_le.mp hm⟩
            · left
              have hki : k ≤ i := by omega
              have h3 := rng_min_mono hne hord hki (by omega)
              have h4 := rng_minlt hne (show i < R.length by omega)
              linarith
          · intro k hik hkR hp
            rcases hp with hp | ⟨hp1, hp2, hp3⟩
            · have h5 := rng_sep hne hord (show i + 1 < k from hik) hkR
              have h6 := rng_minlt hne (show i + 1 < R.length from hi)
              linarith
            · have hk1 : i + 1 ≤ k - 1 := by omega
              have h5 := rng_max_mono hne hord hk1
                (show k - 1 < R.length by omega)
              have h6 := rng_minlt hne (show i + 1 < R.length from hi)
              linarith

/-- C4 (amended): over a range list with ascending, non-overlapping
`[min_temp, max_temp)` bounds *and* non-decreasing rpm values, the
target-RPM map is monotone non-decreasing over the whole temperature
domain. -/
theorem target_rpm_monotone (R : List TempRange)
    (hne : ∀ r ∈ R, r.min_temp < r.max_temp)
    (hord : R.Chain' (fun a b => a.max_temp ≤ b.min_temp))
    (hrpm : R.Chain' (fun a b => a.rpm ≤ b.rpm))
    (t1 t2 : ℚ) (h12 : t1 ≤ t2) :
    calculate_target_rpm R t1 ≤ calculate_target_rpm R t2 := by
  rcases eq_or_ne R [] with hR | hR
  · subst hR
    exact le_refl _
  · obtain ⟨o1, ho1, he1, hp1, hq1⟩ := owner_exists hne hord hR t1
    obtain ⟨o2, ho2, he2, hp2, hq2⟩ := owner_exists hne hord hR t2
    have ho12 : o1 ≤ o2 := by
      by_contra hc
      push_neg at hc
      have hk := hp1 (o2 + 1) (by omega) (by omega)
      have hk2 := hq2 (o2 + 1) (by omega) (by omega)
      exact hk2 (passedIdx_mono h12 hk)
    rw [he1, he2]
    exact rng_rpm_mono hrpm ho12 ho2

/-- C4 counterexample: a two-range list with ascending, non-overlapping
bounds whose rpm values *descend*: the claim as stated asserts
monotonicity for it, but the target falls from 2000 to 1000 when the
temperature rises from 40 to 55. -/
theorem target_rpm_not_monotone_cex :
    (∀ r ∈ ([⟨0, 50, 2000⟩, ⟨50, 60, 1000⟩] : List TempRange),
      r.min_temp < r.max_temp) ∧
    ([⟨0, 50, 2000⟩, ⟨50, 60, 1000⟩] : List TempRange).Chain'
      (fun a b => a.max_temp ≤ b.min_temp) ∧
    (40 : ℚ) ≤ 55 ∧
    calculate_target_rpm [⟨0, 50, 2000⟩, ⟨50, 60, 1000⟩] 40 = 2000 ∧
    calculate_target_rpm [⟨0, 50, 2000⟩, ⟨50, 60, 1000⟩] 55 = 1000 ∧
    ¬ (calculate_target_rpm [⟨0, 50, 2000⟩, ⟨50, 60, 1000⟩] 40 ≤
       calculate_target_rpm [⟨0, 50, 2000⟩, ⟨50, 60, 1000⟩] 55) := by
  refine ⟨by decide, ?_, by decide, by decide, by decide, by decide⟩
  rw [List.chain'_cons]
  exact ⟨by decide, List.chain'_singleton _⟩

/-- Witness for `target_rpm_monotone` on the default range table. -/
theorem target_rpm_monotone_witness :
    calculate_target_rpm defaultRanges 55 ≤
      calculate_target_rpm defaultRanges 72 :=
  target_rpm_monotone defaultRanges (by decide)
    (by simp only [defaultRanges, List.chain'_cons, List.chain'_singleton,
          and_true]
        decide)
    (by simp only [defaultRanges, List.chain'_cons, List.chain'_singleton,
          and_true]
        decide)
    55 72 (by decide)

end BS2Pro

